import Mathlib

/-!
Shallow embedding of the chart parser in `src/sightread/detail/chart.cpp`.

Strings are modelled as `List Char`.  C++ `int` fields are modelled as `Int`
with the 32-bit range checks made explicit where the source performs them
(`std::from_chars<int>` and `lexy::dsl::integer<int>` both reject values
outside the signed 32-bit range).  Functions that `throw SightRead::ParseError`
are modelled in `Except ParseError`; the five distinct error conditions of the
source are distinguished by constructor (the source distinguishes them by
message text, recorded in the comments below).  The `while` loops of
`read_section` and `parse_chart` are modelled by structural recursion on an
explicit bound (`fuel`); the bound `input.length + 1` is always sufficient
because every successful `break_off_newline` strictly shrinks the input, which
is proved below (`break_off_newline_length_lt`, `read_body_fuel_congr`,
`parse_chart_fuel_congr`).
-/

namespace SightRead

/-- Events as constructed by `lexy::construct<SightRead::Detail::NoteEvent>`
from the grammar `integer = N integer integer`. -/
structure NoteEvent where
  position : Int
  fret : Int
  length : Int
  deriving DecidableEq

/-- Events from the grammar `integer = S integer integer`. -/
structure SpecialEvent where
  position : Int
  key : Int
  length : Int
  deriving DecidableEq

/-- Events from the grammar `integer = B integer`. -/
structure BpmEvent where
  position : Int
  bpm : Int
  deriving DecidableEq

/-- Events from the grammar `integer = TS integer [integer]`, the omitted
second integer defaulting to the literal 2 (`lexy::_3 or 2`). -/
structure TimeSigEvent where
  position : Int
  numerator : Int
  denominator : Int
  deriving DecidableEq

/-- Generic events (`SightRead::Detail::Event`) from the grammar
`integer = E identifier`. -/
structure Event where
  position : Int
  data : List Char
  deriving DecidableEq

/-- Error kinds of `SightRead::ParseError`.  The source distinguishes them by
message text:
`noLinesLeft` = "No lines left" (truncated input),
`headerEmpty` = "Header string empty",
`missingOpenBrace` = "Section does not open with \x7b",
`lineIncomplete` = "Line incomplete",
`malformedEvent` = the message produced by `lexy_ext::report_error` when one of
the five event grammars rejects a line. -/
inductive ParseError where
  | noLinesLeft
  | headerEmpty
  | missingOpenBrace
  | lineIncomplete
  | malformedEvent
  deriving DecidableEq

/-- Model of `SightRead::Detail::ChartSection`: the section name, the five
event lists and the key/value metadata map.  The C++ `std::map` is modelled as
an association list whose `map_insert` overwrites an existing key in place. -/
structure ChartSection where
  name : List Char
  note_events : List NoteEvent
  special_events : List SpecialEvent
  bpm_events : List BpmEvent
  ts_events : List TimeSigEvent
  events : List Event
  key_value_pairs : List (List Char × List Char)
  deriving DecidableEq

/-- Model of `SightRead::Detail::Chart`: the ordered list of sections. -/
structure Chart where
  sections : List ChartSection
  deriving DecidableEq

/-- Default-constructed `ChartSection` (all fields empty). -/
def emptySection : ChartSection := ⟨[], [], [], [], [], [], []⟩

/-- Assignment `m[k] = v` on the metadata map: overwrite the binding of `k`
when present, append it otherwise. -/
def map_insert (m : List (List Char × List Char)) (k v : List Char) :
    List (List Char × List Char) :=
  match m with
  | [] => [(k, v)]
  | (k0, v0) :: rest =>
    if k0 = k then (k, v) :: rest else (k0, v0) :: map_insert rest k v

/-- Characters removed by `skip_whitespace`: the set given to
`find_first_not_of(" \f\n\r\t\v")` in the source. -/
def isSkipWs (c : Char) : Bool :=
  c = ' ' || c = '\x0c' || c = '\n' || c = '\r' || c = '\t' || c = '\x0b'

/-- Model of `skip_whitespace`: drop the leading run of whitespace. -/
def skip_whitespace (input : List Char) : List Char :=
  input.dropWhile isSkipWs

/-- Locate the first line terminator, as
`std::min(input.find('\n'), input.find("\r\n"))` does: the earliest position
holding either a bare `'\n'` or a `'\r'` immediately followed by `'\n'`.
Returns the line before that position together with the remainder starting at
that position (the terminator is not consumed, matching
`input.remove_prefix(newline_location)`); `none` when no terminator exists. -/
def split_newline : List Char → Option (List Char × List Char)
  | [] => none
  | c :: rest =>
    if c = '\n' then some ([], c :: rest)
    else if c = '\r' ∧ rest.head? = some '\n' then some ([], c :: rest)
    else
      match split_newline rest with
      | none => none
      | some (l, r) => some (c :: l, r)

/-- Model of `break_off_newline`: fail with "No lines left" on empty input;
otherwise return the first line, leaving the remainder with its leading
whitespace (including the terminator itself) skipped.  When no terminator
exists the whole remaining input is the line and the remainder is empty. -/
def break_off_newline (input : List Char) :
    Except ParseError (List Char × List Char) :=
  if input = [] then .error .noLinesLeft
  else
    match split_newline input with
    | none => .ok (input, [])
    | some (l, r) => .ok (l, skip_whitespace r)

/-- Model of `strip_square_brackets`: fail with "Header string empty" on an
empty line, else `substr(1, size - 2)` (drop the first character, keep the
next `size - 2` characters). -/
def strip_square_brackets (input : List Char) :
    Except ParseError (List Char) :=
  if input = [] then .error .headerEmpty
  else .ok ((input.drop 1).take (input.length - 2))

/-- Value of a digit string read in base 10, as `std::from_chars` and
`lexy::dsl::integer` accumulate it. -/
def digitsToNat (ds : List Char) : Nat :=
  ds.foldl (fun a c => 10 * a + (c.toNat - 48)) 0

/-- Model of `string_view_to_int`, i.e. `std::from_chars` for `int` plus the
full-consumption check `p == last`: an optional leading minus sign followed by
one or more decimal digits spanning the whole input, value within the signed
32-bit range; anything else gives `none`. -/
def string_view_to_int (input : List Char) : Option Int :=
  match input with
  | '-' :: ds =>
    if ds ≠ [] ∧ ds.all Char.isDigit then
      if (digitsToNat ds : Int) > 2147483648 then none
      else some (-(digitsToNat ds : Int))
    else none
  | ds =>
    if ds ≠ [] ∧ ds.all Char.isDigit then
      if (digitsToNat ds : Int) > 2147483647 then none
      else some (digitsToNat ds : Int)
    else none

/-- Model of `split_by_space`: split on the space character exactly, keeping
empty tokens; the result is always nonempty (the final push happens
unconditionally). -/
def split_by_space (input : List Char) : List (List Char) :=
  match input with
  | [] => [[]]
  | c :: rest =>
    if c = ' ' then [] :: split_by_space rest
    else
      match split_by_space rest with
      | [] => [[c]]
      | t :: ts => (c :: t) :: ts

/-- Characters skipped by the grammars' automatic whitespace
(`lexy::dsl::ascii::blank`): space and horizontal tab. -/
def isBlank (c : Char) : Bool :=
  c = ' ' || c = '\t'

/-- Skip the blank run that lexy consumes after every token. -/
def skipBlank (l : List Char) : List Char :=
  l.dropWhile isBlank

/-- Model of `lexy::dsl::integer<int>` followed by automatic whitespace
skipping: one or more decimal digits (no sign), value at most `INT_MAX`;
fails otherwise.  An out-of-range value makes the grammar fail, as the
overflow error does in the source. -/
def lexInteger (l : List Char) : Option (Int × List Char) :=
  let ds := l.takeWhile Char.isDigit
  if ds = [] then none
  else if (digitsToNat ds : Int) > 2147483647 then none
  else some ((digitsToNat ds : Int), skipBlank (l.dropWhile Char.isDigit))

/-- Model of `lexy::dsl::lit_c<c>` followed by automatic whitespace
skipping. -/
def lexLit (c : Char) (l : List Char) : Option (List Char) :=
  match l with
  | [] => none
  | c0 :: rest => if c0 = c then some (skipBlank rest) else none

/-- Model of `LEXY_LIT("TS")` followed by automatic whitespace skipping. -/
def lexLitTS (l : List Char) : Option (List Char) :=
  match l with
  | 'T' :: 'S' :: rest => some (skipBlank rest)
  | _ => none

/-- Character class of `grammar::rest_of_event`:
`dsl::ascii::alnum / dsl::lit_c<underscore>`. -/
def isIdentChar (c : Char) : Bool :=
  c.isAlphanum || c = '_'

/-- Model of `dsl::identifier(dsl::ascii::alnum / underscore)` (production
`rest_of_event`): one or more characters of the class, followed by automatic
whitespace skipping. -/
def lexIdent (l : List Char) : Option (List Char × List Char) :=
  let tok := l.takeWhile isIdentChar
  if tok = [] then none
  else some (tok, skipBlank (l.dropWhile isIdentChar))

/-- Model of `convert_line_to_note` (grammar `note_event`:
`integer = N integer integer eof`); `none` models the thrown
`ParseError`. -/
def convert_line_to_note (line : List Char) : Option NoteEvent :=
  match lexInteger line with
  | none => none
  | some (pos, r1) =>
    match lexLit '=' r1 with
    | none => none
    | some r2 =>
      match lexLit 'N' r2 with
      | none => none
      | some r3 =>
        match lexInteger r3 with
        | none => none
        | some (fret, r4) =>
          match lexInteger r4 with
          | none => none
          | some (len, r5) =>
            if r5 = [] then some ⟨pos, fret, len⟩ else none

/-- Model of `convert_line_to_special` (grammar `special_event`:
`integer = S integer integer eof`). -/
def convert_line_to_special (line : List Char) : Option SpecialEvent :=
  match lexInteger line with
  | none => none
  | some (pos, r1) =>
    match lexLit '=' r1 with
    | none => none
    | some r2 =>
      match lexLit 'S' r2 with
      | none => none
      | some r3 =>
        match lexInteger r3 with
        | none => none
        | some (key, r4) =>
          match lexInteger r4 with
          | none => none
          | some (len, r5) =>
            if r5 = [] then some ⟨pos, key, len⟩ else none

/-- Model of `convert_line_to_bpm` (grammar `bpm_event`:
`integer = B integer eof`). -/
def convert_line_to_bpm (line : List Char) : Option BpmEvent :=
  match lexInteger line with
  | none => none
  | some (pos, r1) =>
    match lexLit '=' r1 with
    | none => none
    | some r2 =>
      match lexLit 'B' r2 with
      | none => none
      | some r3 =>
        match lexInteger r3 with
        | none => none
        | some (bpm, r4) =>
          if r4 = [] then some ⟨pos, bpm⟩ else none

/-- Model of `convert_line_to_timesig` (grammar `ts_event`:
`integer = TS integer try_(integer, nullopt) eof`, value
`construct(_1, _2, _3 or 2)`): the second integer is optional and defaults to
the literal 2 when absent. -/
def convert_line_to_timesig (line : List Char) : Option TimeSigEvent :=
  match lexInteger line with
  | none => none
  | some (pos, r1) =>
    match lexLit '=' r1 with
    | none => none
    | some r2 =>
      match lexLitTS r2 with
      | none => none
      | some r3 =>
        match lexInteger r3 with
        | none => none
        | some (num, r4) =>
          match lexInteger r4 with
          | some (den, r5) => if r5 = [] then some ⟨pos, num, den⟩ else none
          | none => if r4 = [] then some ⟨pos, num, 2⟩ else none

/-- Model of `convert_line_to_event` (grammar `event`:
`integer = E rest_of_event eof`). -/
def convert_line_to_event (line : List Char) : Option Event :=
  match lexInteger line with
  | none => none
  | some (pos, r1) =>
    match lexLit '=' r1 with
    | none => none
    | some r2 =>
      match lexLit 'E' r2 with
      | none => none
      | some r3 =>
        match lexIdent r3 with
        | none => none
        | some (tok, r4) =>
          if r4 = [] then some ⟨pos, tok⟩ else none

/-- Body of the `while` loop of `read_section` for one line: tokenize, require
at least 3 tokens ("Line incomplete"), then dispatch on whether token 0 parses
as an integer: if so, select an event grammar by token 2 (any unrecognized
tag falls through the `else if` chain and the line is dropped); if not, store
a metadata assignment whose value concatenates tokens 2 onward. -/
def process_line (line : List Char) (s : ChartSection) :
    Except ParseError ChartSection :=
  let separated := split_by_space line
  if separated.length < 3 then .error .lineIncomplete
  else
    match string_view_to_int (separated.getD 0 []) with
    | some _ =>
      if separated.getD 2 [] = ['N'] then
        match convert_line_to_note line with
        | none => .error .malformedEvent
        | some e => .ok { s with note_events := s.note_events ++ [e] }
      else if separated.getD 2 [] = ['S'] then
        match convert_line_to_special line with
        | none => .error .malformedEvent
        | some e => .ok { s with special_events := s.special_events ++ [e] }
      else if separated.getD 2 [] = ['B'] then
        match convert_line_to_bpm line with
        | none => .error .malformedEvent
        | some e => .ok { s with bpm_events := s.bpm_events ++ [e] }
      else if separated.getD 2 [] = ['T', 'S'] then
        match convert_line_to_timesig line with
        | none => .error .malformedEvent
        | some e => .ok { s with ts_events := s.ts_events ++ [e] }
      else if separated.getD 2 [] = ['E'] then
        match convert_line_to_event line with
        | none => .error .malformedEvent
        | some e => .ok { s with events := s.events ++ [e] }
      else .ok s
    | none =>
      .ok { s with key_value_pairs :=
        (map_insert s.key_value_pairs (separated.getD 0 [])
          ((separated.drop 2).flatten)) }

/-- Body loop of `read_section`, with an explicit structural bound: read a
line; `\x7d` ends the section, anything else is dispatched by
`process_line`.  The bound is irrelevant as long as it exceeds the input
length (`read_body_fuel_congr` below). -/
def read_body_fuel : Nat → List Char → ChartSection →
    Except ParseError (ChartSection × List Char)
  | 0, _, _ => .error .noLinesLeft
  | fuel + 1, input, s =>
    match break_off_newline input with
    | .error e => .error e
    | .ok (line, rest) =>
      if line = ['\x7d'] then .ok (s, rest)
      else
        match process_line line s with
        | .error e => .error e
        | .ok s1 => read_body_fuel fuel rest s1

/-- Body loop of `read_section` at its canonical (always sufficient)
bound. -/
def read_body (input : List Char) (s : ChartSection) :
    Except ParseError (ChartSection × List Char) :=
  read_body_fuel (input.length + 1) input s

/-- Model of `read_section`: header line (bracket-stripped into the name),
a line that must equal `\x7b` ("Section does not open with \x7b"), then the
body loop.  Returns the finished section together with the remaining
input. -/
def read_section (input : List Char) :
    Except ParseError (ChartSection × List Char) :=
  match break_off_newline input with
  | .error e => .error e
  | .ok (header, r1) =>
    match strip_square_brackets header with
    | .error e => .error e
    | .ok name =>
      match break_off_newline r1 with
      | .error e => .error e
      | .ok (brace, r2) =>
        if brace = ['\x7b'] then
          read_body r2 { emptySection with name := name }
        else .error .missingOpenBrace

/-- Section loop of `parse_chart`, with an explicit structural bound
(irrelevant as long as it exceeds the input length,
`parse_chart_fuel_congr` below). -/
def parse_chart_fuel : Nat → List Char → Except ParseError (List ChartSection)
  | 0, _ => .error .noLinesLeft
  | fuel + 1, data =>
    if data = [] then .ok []
    else
      match read_section data with
      | .error e => .error e
      | .ok (sec, rest) =>
        match parse_chart_fuel fuel rest with
        | .error e => .error e
        | .ok secs => .ok (sec :: secs)

/-- Model of `SightRead::Detail::parse_chart`: read sections until the input
is exhausted; any failure aborts the whole parse. -/
def parse_chart (data : List Char) : Except ParseError Chart :=
  match parse_chart_fuel (data.length + 1) data with
  | .error e => .error e
  | .ok secs => .ok ⟨secs⟩

end SightRead

namespace SightRead

/-! Helper lemmas about `split_newline`, `break_off_newline` and the fuel
bounds of the two loops. -/

theorem dropWhile_length_le (p : Char → Bool) (l : List Char) :
    (l.dropWhile p).length ≤ l.length := by
  induction l with
  | nil => simp
  | cons c rest ih =>
    rw [List.dropWhile_cons]
    split
    · exact Nat.le_succ_of_le ih
    · exact Nat.le_refl _

theorem split_newline_spec (x l r : List Char)
    (h : split_newline x = some (l, r)) :
    x = l ++ r ∧ ∃ c t, r = c :: t ∧ isSkipWs c = true := by
  induction x generalizing l r with
  | nil => simp [split_newline] at h
  | cons c rest ih =>
    by_cases h1 : c = '\n'
    · rw [split_newline, if_pos h1] at h
      obtain ⟨rfl, rfl⟩ : l = [] ∧ c :: rest = r := by
        simpa [eq_comm] using h
      exact ⟨rfl, c, rest, rfl, by simp [isSkipWs, h1]⟩
    · by_cases h2 : c = '\r' ∧ rest.head? = some '\n'
      · rw [split_newline, if_neg h1, if_pos h2] at h
        obtain ⟨rfl, rfl⟩ : l = [] ∧ c :: rest = r := by
          simpa [eq_comm] using h
        exact ⟨rfl, c, rest, rfl, by simp [isSkipWs, h2.1]⟩
      · rw [split_newline, if_neg h1, if_neg h2] at h
        match hr : split_newline rest with
        | none => rw [hr] at h; exact absurd h (by simp)
        | some (l0, r0) =>
          rw [hr] at h
          obtain ⟨rfl, rfl⟩ : c :: l0 = l ∧ r0 = r := by
            simpa using h
          obtain ⟨hx, hc⟩ := ih l0 r0 hr
          exact ⟨by simp [hx], hc⟩

theorem split_newline_append (x y l r : List Char)
    (h : split_newline x = some (l, r)) :
    split_newline (x ++ y) = some (l, r ++ y) := by
  induction x generalizing l r with
  | nil => simp [split_newline] at h
  | cons c rest ih =>
    by_cases h1 : c = '\n'
    · rw [split_newline, if_pos h1] at h
      obtain ⟨rfl, rfl⟩ : l = [] ∧ c :: rest = r := by
        simpa [eq_comm] using h
      rw [List.cons_append, split_newline, if_pos h1]
    · by_cases h2 : c = '\r' ∧ rest.head? = some '\n'
      · rw [split_newline, if_neg h1, if_pos h2] at h
        obtain ⟨rfl, rfl⟩ : l = [] ∧ c :: rest = r := by
          simpa [eq_comm] using h
        have hrest : rest ≠ [] := by
          intro hh
          rw [hh] at h2
          exact absurd h2.2 (by simp)
        have h2a : c = '\r' ∧ (rest ++ y).head? = some '\n' := by
          refine ⟨h2.1, ?_⟩
          rw [List.head?_append_of_ne_nil _ hrest]
          exact h2.2
        rw [List.cons_append, split_newline, if_neg h1, if_pos h2a]
      · rw [split_newline, if_neg h1, if_neg h2] at h
        match hr : split_newline rest with
        | none => rw [hr] at h; exact absurd h (by simp)
        | some (l0, r0) =>
          rw [hr] at h
          obtain ⟨rfl, rfl⟩ : c :: l0 = l ∧ r0 = r := by
            simpa using h
          have hrest : rest ≠ [] := by
            intro hh
            rw [hh] at hr
            simp [split_newline] at hr
          have h2a : ¬(c = '\r' ∧ (rest ++ y).head? = some '\n') := by
            rw [List.head?_append_of_ne_nil _ hrest]
            exact h2
          rw [List.cons_append, split_newline, if_neg h1, if_neg h2a,
            ih l0 r0 hr]

theorem split_newline_some_of_mem (x : List Char) (h : '\n' ∈ x) :
    ∃ p, split_newline x = some p := by
  induction x with
  | nil => simp at h
  | cons c rest ih =>
    by_cases h1 : c = '\n'
    · exact ⟨([], c :: rest), by rw [split_newline, if_pos h1]⟩
    · by_cases h2 : c = '\r' ∧ rest.head? = some '\n'
      · exact ⟨([], c :: rest), by rw [split_newline, if_neg h1, if_pos h2]⟩
      · have hmem : '\n' ∈ rest := by
          rcases List.mem_cons.mp h with h3 | h3
          · exact absurd h3.symm h1
          · exact h3
        obtain ⟨⟨l0, r0⟩, hp⟩ := ih hmem
        exact ⟨(c :: l0, r0), by rw [split_newline, if_neg h1, if_neg h2, hp]⟩

theorem break_off_newline_length_lt (x l r : List Char)
    (h : break_off_newline x = .ok (l, r)) : r.length < x.length := by
  rw [break_off_newline] at h
  split at h
  · exact absurd h (by simp)
  · next hx =>
    split at h
    · obtain ⟨rfl, rfl⟩ : x = l ∧ [] = r := by simpa using h
      cases x with
      | nil => exact absurd rfl hx
      | cons c t => simp
    · next l0 r0 hs =>
      obtain ⟨rfl, rfl⟩ : l0 = l ∧ skip_whitespace r0 = r := by simpa using h
      obtain ⟨hx_eq, c, t, rfl, hws⟩ := split_newline_spec x l0 r0 hs
      have h1 : skip_whitespace (c :: t) = t.dropWhile isSkipWs := by
        rw [skip_whitespace, List.dropWhile_cons_of_pos hws]
      have h2 : (t.dropWhile isSkipWs).length ≤ t.length :=
        dropWhile_length_le _ _
      rw [h1, hx_eq]
      simp only [List.length_append, List.length_cons]
      omega

theorem break_off_newline_suffix (x l r : List Char)
    (h : break_off_newline x = .ok (l, r)) : ∃ t, t ++ r = x := by
  rw [break_off_newline] at h
  split at h
  · exact absurd h (by simp)
  · split at h
    · have hlr : x = l ∧ [] = r := by simpa using h
      exact ⟨x, by rw [← hlr.2]; simp⟩
    · next l0 r0 hs =>
      obtain ⟨rfl, rfl⟩ : l0 = l ∧ skip_whitespace r0 = r := by simpa using h
      obtain ⟨hx_eq, c, t, rfl, hws⟩ := split_newline_spec x l0 r0 hs
      refine ⟨l0 ++ c :: t.takeWhile isSkipWs, ?_⟩
      rw [skip_whitespace, List.dropWhile_cons_of_pos hws, hx_eq]
      simp [List.takeWhile_append_dropWhile]

theorem break_off_newline_append (x y l r : List Char)
    (hmem : '\n' ∈ x) (hy : skip_whitespace y = y)
    (h : break_off_newline x = .ok (l, r)) :
    break_off_newline (x ++ y) = .ok (l, r ++ y) := by
  have hx : x ≠ [] := by rintro rfl; simp at hmem
  obtain ⟨⟨l0, r0⟩, hs⟩ := split_newline_some_of_mem x hmem
  rw [break_off_newline, if_neg hx, hs] at h
  obtain ⟨rfl, rfl⟩ : l0 = l ∧ skip_whitespace r0 = r := by simpa using h
  have hxy : x ++ y ≠ [] := by
    intro hh
    exact hx (List.append_eq_nil.mp hh).1
  have hskip : skip_whitespace (r0 ++ y) = skip_whitespace r0 ++ y := by
    rw [skip_whitespace, List.dropWhile_append]
    split
    · next hemp =>
      have h0 : skip_whitespace r0 = [] := by
        rw [skip_whitespace, ← List.isEmpty_iff]
        exact hemp
      rw [h0, List.nil_append]
      exact hy
    · rfl
  rw [break_off_newline, if_neg hxy, split_newline_append x y l0 r0 hs]
  simp [hskip]

theorem read_body_fuel_congr (f : Nat) :
    ∀ (x : List Char) (s : ChartSection) (g : Nat),
      x.length < f → x.length < g →
      read_body_fuel f x s = read_body_fuel g x s := by
  induction f with
  | zero => intro x s g hf; omega
  | succ f ih =>
    intro x s g hf hg
    match g, hg with
    | g + 1, _ =>
      rw [read_body_fuel, read_body_fuel]
      split
      · rfl
      · next line rest hb =>
        have hlt := break_off_newline_length_lt x line rest hb
        split
        · rfl
        · split
          · rfl
          · next s1 hp =>
            exact ih rest s1 g (by omega) (by omega)

theorem read_body_eq_fuel (f : Nat) (x : List Char) (s : ChartSection)
    (hf : x.length < f) : read_body_fuel f x s = read_body x s :=
  read_body_fuel_congr f x s (x.length + 1) hf (Nat.lt_succ_self _)

theorem read_body_fuel_length_le (f : Nat) :
    ∀ (x : List Char) (s sec : ChartSection) (r : List Char),
      read_body_fuel f x s = .ok (sec, r) → r.length ≤ x.length := by
  induction f with
  | zero =>
    intro x s sec r h
    rw [read_body_fuel] at h
    exact absurd h (by simp)
  | succ f ih =>
    intro x s sec r h
    rw [read_body_fuel] at h
    split at h
    · exact absurd h (by simp)
    · next line rest hb =>
      have hlt := break_off_newline_length_lt x line rest hb
      split at h
      · obtain ⟨rfl, rfl⟩ : s = sec ∧ rest = r := by simpa using h
        omega
      · split at h
        · exact absurd h (by simp)
        · next s1 hp =>
          have := ih rest s1 sec r h
          omega

theorem read_section_length_lt (x : List Char) (sec : ChartSection)
    (r : List Char) (h : read_section x = .ok (sec, r)) :
    r.length < x.length := by
  rw [read_section] at h
  split at h
  · exact absurd h (by simp)
  · next header r1 h1 =>
    split at h
    · exact absurd h (by simp)
    · next name h2 =>
      split at h
      · exact absurd h (by simp)
      · next brace r2 h3 =>
        split at h
        · have hb1 := break_off_newline_length_lt x header r1 h1
          have hb2 := break_off_newline_length_lt r1 brace r2 h3
          have hb3 := read_body_fuel_length_le (r2.length + 1) r2 _ sec r h
          omega
        · exact absurd h (by simp)

theorem parse_chart_fuel_congr (f : Nat) :
    ∀ (x : List Char) (g : Nat), x.length < f → x.length < g →
      parse_chart_fuel f x = parse_chart_fuel g x := by
  induction f with
  | zero => intro x g hf; omega
  | succ f ih =>
    intro x g hf hg
    match g, hg with
    | g + 1, _ =>
      rw [parse_chart_fuel, parse_chart_fuel]
      split
      · rfl
      · split
        · rfl
        · next sec rest hr =>
          have hlt := read_section_length_lt x sec rest hr
          rw [ih rest g (by omega) (by omega)]

theorem break_off_newline_getLast (x l r : List Char)
    (h : break_off_newline x = .ok (l, r)) (hx : x.getLast? = some '\n')
    (hr : r ≠ []) : r.getLast? = some '\n' := by
  obtain ⟨t, ht⟩ := break_off_newline_suffix x l r h
  rw [← ht, List.getLast?_append] at hx
  cases hr2 : r.getLast? with
  | none =>
    rw [List.getLast?_eq_none_iff] at hr2
    exact absurd hr2 hr
  | some a =>
    rw [hr2] at hx
    simpa using hx

theorem read_body_fuel_append (f : Nat) :
    ∀ (x y : List Char) (s sec : ChartSection) (r : List Char),
      x.length < f → x.getLast? = some '\n' → skip_whitespace y = y →
      read_body x s = .ok (sec, r) →
      read_body (x ++ y) s = .ok (sec, r ++ y) := by
  induction f with
  | zero => intro x y s sec r hf; omega
  | succ f ih =>
    intro x y s sec r hf hx hy h
    rw [read_body, read_body_fuel] at h
    split at h
    · exact absurd h (by simp)
    · next line rest hb =>
      have hmem : '\n' ∈ x := List.mem_of_getLast?_eq_some hx
      have hb2 := break_off_newline_append x y line rest hmem hy hb
      have hlt := break_off_newline_length_lt x line rest hb
      rw [read_body, read_body_fuel]
      simp only [hb2]
      split at h
      · next hline =>
        obtain ⟨rfl, rfl⟩ : s = sec ∧ rest = r := by simpa using h
        rw [if_pos hline]
      · next hline =>
        rw [if_neg hline]
        split at h
        · exact absurd h (by simp)
        · next s1 hp =>
          have h2 : read_body rest s1 = .ok (sec, r) := by
            rw [← read_body_eq_fuel x.length rest s1 hlt]
            exact h
          by_cases hrnil : rest = []
          · rw [hrnil, read_body, read_body_fuel] at h2
            exact absurd h2 (by simp [break_off_newline])
          · have hrl : rest.getLast? = some '\n' :=
              break_off_newline_getLast x line rest hb hx hrnil
            have hcongr := read_body_fuel_congr ((x ++ y).length)
              (rest ++ y) s1 ((rest ++ y).length + 1)
              (by simp only [List.length_append]; omega)
              (by omega)
            rw [hcongr]
            exact ih rest y s1 sec r (by omega) hrl hy h2

theorem read_body_append (x y : List Char) (s sec : ChartSection)
    (r : List Char) (hx : x.getLast? = some '\n')
    (hy : skip_whitespace y = y) (h : read_body x s = .ok (sec, r)) :
    read_body (x ++ y) s = .ok (sec, r ++ y) :=
  read_body_fuel_append (x.length + 1) x y s sec r (Nat.lt_succ_self _)
    hx hy h

theorem read_section_append (x y : List Char) (sec : ChartSection)
    (r : List Char) (hx : x.getLast? = some '\n')
    (hy : skip_whitespace y = y) (h : read_section x = .ok (sec, r)) :
    read_section (x ++ y) = .ok (sec, r ++ y) := by
  rw [read_section] at h
  split at h
  · exact absurd h (by simp)
  · next header r1 h1 =>
    have hmem : '\n' ∈ x := List.mem_of_getLast?_eq_some hx
    have hb1 := break_off_newline_append x y header r1 hmem hy h1
    rw [read_section]
    simp only [hb1]
    split at h
    · exact absurd h (by simp)
    · next name h2 =>
      split at h
      · exact absurd h (by simp)
      · next brace r2 h3 =>
        have hr1nil : r1 ≠ [] := by
          rintro rfl
          rw [break_off_newline] at h3
          simp at h3
        have hr1l : r1.getLast? = some '\n' :=
          break_off_newline_getLast x header r1 h1 hx hr1nil
        have hmem1 : '\n' ∈ r1 := List.mem_of_getLast?_eq_some hr1l
        have hb3 := break_off_newline_append r1 y brace r2 hmem1 hy h3
        simp only [hb3]
        split at h
        · next hbrace =>
          rw [if_pos hbrace]
          by_cases hr2nil : r2 = []
          · rw [hr2nil, read_body, read_body_fuel] at h
            exact absurd h (by simp [break_off_newline])
          · have hr2l : r2.getLast? = some '\n' :=
              break_off_newline_getLast r1 brace r2 h3 hr1l hr2nil
            exact read_body_append r2 y _ sec r hr2l hy h
        · next hbrace =>
          exact absurd h (by simp)

theorem parse_chart_fuel_ok_nil (f : Nat) (x : List Char)
    (h : parse_chart_fuel f x = .ok []) : x = [] := by
  match f with
  | 0 =>
    rw [parse_chart_fuel] at h
    exact absurd h (by simp)
  | f + 1 =>
    rw [parse_chart_fuel] at h
    split at h
    · assumption
    · split at h
      · exact absurd h (by simp)
      · split at h
        · exact absurd h (by simp)
        · exact absurd h (by simp)

theorem parse_chart_single (d : List Char) (s : ChartSection)
    (h : parse_chart d = .ok ⟨[s]⟩) :
    read_section d = .ok (s, []) ∧ d ≠ [] := by
  rw [parse_chart] at h
  split at h
  · exact absurd h (by simp)
  · next secs hsecs =>
    obtain rfl : secs = [s] := by simpa [Chart.mk.injEq] using h
    rw [parse_chart_fuel] at hsecs
    split at hsecs
    · exact absurd hsecs (by simp)
    · next hd =>
      split at hsecs
      · exact absurd hsecs (by simp)
      · next sec rest hr =>
        split at hsecs
        · exact absurd hsecs (by simp)
        · next secs2 hsecs2 =>
          obtain ⟨rfl, rfl⟩ : sec = s ∧ secs2 = [] := by
            simpa using hsecs
          have hrest : rest = [] := parse_chart_fuel_ok_nil _ rest hsecs2
          rw [hrest] at hr
          exact ⟨hr, hd⟩

theorem parse_chart_fuel_of_parse (d : List Char) (secs : List ChartSection)
    (h : parse_chart d = .ok ⟨secs⟩) :
    parse_chart_fuel (d.length + 1) d = .ok secs := by
  rw [parse_chart] at h
  split at h
  · exact absurd h (by simp)
  · next secs2 hsecs =>
    obtain rfl : secs2 = secs := by simpa [Chart.mk.injEq] using h
    exact hsecs

/-! Helper lemmas about the lexy token models on well-formed token shapes. -/

theorem ident_not_blank (c : Char) (h : isIdentChar c = true) :
    isBlank c = false := by
  rw [isBlank]
  by_cases h1 : c = ' '
  · subst h1
    exact absurd h (by decide)
  · by_cases h2 : c = '\t'
    · subst h2
      exact absurd h (by decide)
    · simp [h1, h2]

theorem skipBlank_ident (tok : List Char) (hall : tok.all isIdentChar = true) :
    skipBlank tok = tok := by
  rw [skipBlank]
  cases tok with
  | nil => rfl
  | cons c r =>
    have hc : isIdentChar c = true :=
      List.all_eq_true.mp hall c (List.mem_cons_self c r)
    rw [List.dropWhile_cons_of_neg]
    simp [ident_not_blank c hc]

theorem lexInteger_digits_space (ds r : List Char) (hne : ds ≠ [])
    (hall : ds.all Char.isDigit = true)
    (hmax : (digitsToNat ds : Int) ≤ 2147483647) :
    lexInteger (ds ++ ' ' :: r)
      = some ((digitsToNat ds : Int), skipBlank (' ' :: r)) := by
  have hd : ∀ c ∈ ds, Char.isDigit c = true := List.all_eq_true.mp hall
  simp only [lexInteger]
  rw [List.takeWhile_append_of_pos hd, List.dropWhile_append_of_pos hd,
    List.takeWhile_cons_of_neg (by decide), List.dropWhile_cons_of_neg (by decide),
    List.append_nil]
  rw [if_neg hne, if_neg (by omega)]

theorem lexIdent_all (tok : List Char) (hne : tok ≠ [])
    (hall : tok.all isIdentChar = true) :
    lexIdent tok = some (tok, []) := by
  have hi : ∀ c ∈ tok, isIdentChar c = true := List.all_eq_true.mp hall
  simp only [lexIdent]
  rw [List.takeWhile_eq_self_iff.mpr hi, if_neg hne,
    List.dropWhile_eq_nil_iff.mpr hi]
  rfl

/-! Claim theorems. -/

/-- C1 (counterexample): a section whose body is the note line
`abc = N 1 2` does NOT abort with `MalformedEvent`: because the position
token `abc` is not an integer, the dispatch takes the metadata branch and the
parse succeeds, storing `key_value_pairs["abc"] = "N12"`. -/
theorem c1_cex_bad_position_line_parses_as_metadata :
    parse_chart ("[Foo]\n\x7b\nabc = N 1 2\n\x7d".toList)
      = .ok ⟨[{ emptySection with name := "Foo".toList, key_value_pairs := [("abc".toList, "N12".toList)] }]⟩ := rfl

/-- C1 (amended): a body line whose position token is not fully consumable as
an integer is not an error: `abc = N 1 2` is stored as the metadata
assignment `key_value_pairs["abc"] = "N12"` for any accumulated section
state, and the whole parse of the enclosing section succeeds. -/
theorem c1_bad_position_line_stored_as_metadata :
    (∀ s : ChartSection, process_line ("abc = N 1 2".toList) s =
      .ok { s with key_value_pairs :=
        (map_insert s.key_value_pairs ("abc".toList) ("N12".toList)) }) ∧
    parse_chart ("[Foo]\n\x7b\nabc = N 1 2\n\x7d".toList)
      = .ok ⟨[{ emptySection with name := "Foo".toList, key_value_pairs := [("abc".toList, "N12".toList)] }]⟩ :=
  ⟨fun _ => rfl, rfl⟩

/-- C2 (counterexample): the generic-event grammar does not accept every
contiguous non-space token: `a-b` contains `-`, which is outside the
alphanumeric/underscore identifier class, so the line `0 = E a-b` is
rejected and the whole parse aborts with `MalformedEvent`. -/
theorem c2_cex_nonident_token_rejected :
    convert_line_to_event ("0 = E a-b".toList) = none ∧
    parse_chart ("[Foo]\n\x7b\n0 = E a-b\n\x7d".toList)
      = .error .malformedEvent :=
  ⟨rfl, rfl⟩

/-- C2 (amended): the generic-event grammar accepts every line
`<digits> = E <token>` whose token is a nonempty run of alphanumeric or
underscore characters (and whose position fits in a signed 32-bit integer),
recording an `Event` that carries the token as its data payload. -/
theorem c2_generic_event_ident_token (ds tok : List Char) (hne : ds ≠ [])
    (hall : ds.all Char.isDigit = true)
    (hmax : (digitsToNat ds : Int) ≤ 2147483647)
    (htne : tok ≠ []) (htall : tok.all isIdentChar = true) :
    convert_line_to_event (ds ++ ' ' :: '=' :: ' ' :: 'E' :: ' ' :: tok)
      = some ⟨(digitsToNat ds : Int), tok⟩ := by
  simp only [convert_line_to_event,
    lexInteger_digits_space ds ('=' :: ' ' :: 'E' :: ' ' :: tok) hne hall hmax]
  have e1 : skipBlank (' ' :: '=' :: ' ' :: 'E' :: ' ' :: tok)
      = '=' :: ' ' :: 'E' :: ' ' :: tok := rfl
  have e2 : lexLit '=' ('=' :: ' ' :: 'E' :: ' ' :: tok)
      = some ('E' :: ' ' :: tok) := rfl
  have e3 : lexLit 'E' ('E' :: ' ' :: tok) = some (skipBlank tok) := rfl
  rw [skipBlank_ident tok htall] at e3
  simp only [e1, e2, e3, lexIdent_all tok htne htall]
  exact if_pos trivial

/-- C2 (witness): the amended statement evaluated at the concrete line
`0 = E solo_1`. -/
theorem c2_generic_event_ident_token_witness :
    convert_line_to_event
        (['0'] ++ ' ' :: '=' :: ' ' :: 'E' :: ' ' :: ['s', 'o', 'l', 'o', '_', '1'])
      = some ⟨(digitsToNat ['0'] : Int), ['s', 'o', 'l', 'o', '_', '1']⟩ :=
  c2_generic_event_ident_token ['0'] ['s', 'o', 'l', 'o', '_', '1']
    (by decide) (by decide) (by decide) (by decide) (by decide)

/-- C3: a body line with at least 3 tokens whose first token does not parse
as an integer is stored as a metadata assignment: the key is token 0 and the
value is the concatenation of tokens 2 onward with no separators
reinserted. -/
theorem c3_metadata_line_concatenation (line : List Char) (s : ChartSection)
    (h1 : 3 ≤ (split_by_space line).length)
    (h2 : string_view_to_int ((split_by_space line).getD 0 []) = none) :
    process_line line s = .ok { s with key_value_pairs :=
      (map_insert s.key_value_pairs ((split_by_space line).getD 0 [])
        (((split_by_space line).drop 2).flatten)) } := by
  simp only [process_line, h2]
  rw [if_neg (by omega)]

/-- C3 (witness): the line `Name = My Song` yields
`key_value_pairs["Name"] = "MySong"`, the internal space being lost. -/
theorem c3_metadata_line_concatenation_witness :
    process_line ("Name = My Song".toList) emptySection
      = .ok { emptySection with
              key_value_pairs := [("Name".toList, "MySong".toList)] } :=
  (c3_metadata_line_concatenation ("Name = My Song".toList) emptySection
    (by decide) rfl).trans rfl

/-- C4 (counterexample): two independently valid single-section documents
whose concatenation does not parse into their two sections: without a
trailing newline on the first document, its closing brace line fuses with
the second document's header and the parse aborts with `Line incomplete`. -/
theorem c4_cex_concat_missing_newline :
    parse_chart ("[A]\n\x7b\n\x7d".toList)
      = .ok ⟨[{ emptySection with name := ['A'] }]⟩ ∧
    parse_chart ("[B]\n\x7b\n\x7d".toList)
      = .ok ⟨[{ emptySection with name := ['B'] }]⟩ ∧
    parse_chart ("[A]\n\x7b\n\x7d".toList ++ "[B]\n\x7b\n\x7d".toList)
      = .error .lineIncomplete :=
  ⟨rfl, rfl, rfl⟩

/-- C4 (amended): for two independently valid single-section documents,
parsing the concatenation yields exactly their two sections provided the
first document ends with a newline character and the second starts with a
non-whitespace character (otherwise the boundary lines fuse or the second
header shifts, as the counterexample shows). -/
theorem c4_concat_of_newline_terminated (d1 d2 : List Char)
    (s1 s2 : ChartSection)
    (h1 : parse_chart d1 = .ok ⟨[s1]⟩) (h2 : parse_chart d2 = .ok ⟨[s2]⟩)
    (h3 : d1.getLast? = some '\n') (h4 : skip_whitespace d2 = d2) :
    parse_chart (d1 ++ d2) = .ok ⟨[s1, s2]⟩ := by
  obtain ⟨hr1, hd1⟩ := parse_chart_single d1 s1 h1
  have hsec := read_section_append d1 d2 s1 [] h3 h4 hr1
  rw [List.nil_append] at hsec
  have hf2 : parse_chart_fuel (d2.length + 1) d2 = .ok [s2] :=
    parse_chart_fuel_of_parse d2 [s2] h2
  have hmain : parse_chart_fuel ((d1 ++ d2).length + 1) (d1 ++ d2)
      = .ok [s1, s2] := by
    rw [parse_chart_fuel]
    rw [if_neg (by intro hh; exact hd1 (List.append_eq_nil.mp hh).1)]
    simp only [hsec]
    have hlen : d2.length < (d1 ++ d2).length := by
      have hpos := List.length_pos.mpr hd1
      simp only [List.length_append]
      omega
    rw [parse_chart_fuel_congr ((d1 ++ d2).length) d2 (d2.length + 1) hlen
      (Nat.lt_succ_self _), hf2]
  rw [parse_chart, hmain]

/-- C4 (witness): the amended statement evaluated on two concrete
newline-terminated single-section documents. -/
theorem c4_concat_of_newline_terminated_witness :
    parse_chart ("[A]\n\x7b\n\x7d\n".toList ++ "[B]\n\x7b\n\x7d\n".toList)
      = .ok ⟨[{ emptySection with name := ['A'] }, { emptySection with name := ['B'] }]⟩ :=
  c4_concat_of_newline_terminated "[A]\n\x7b\n\x7d\n".toList
    "[B]\n\x7b\n\x7d\n".toList { emptySection with name := ['A'] }
    { emptySection with name := ['B'] } rfl rfl rfl rfl

/-- C5: the time-signature line `0 = TS 4` parses with the omitted second
integer defaulting to the literal 2, and `0 = TS 4 3` parses with
denominator 3; the event is appended to `ts_events`. -/
theorem c5_ts_default_denominator :
    convert_line_to_timesig ("0 = TS 4".toList) = some ⟨0, 4, 2⟩ ∧
    convert_line_to_timesig ("0 = TS 4 3".toList) = some ⟨0, 4, 3⟩ ∧
    process_line ("0 = TS 4".toList) emptySection
      = .ok { emptySection with ts_events := [⟨0, 4, 2⟩] } :=
  ⟨rfl, rfl, rfl⟩

/-- C6: a body line with at least 3 tokens whose first token parses as an
integer but whose third token is none of `N`, `S`, `B`, `TS`, `E` is
silently skipped: the section state is returned unchanged and no error is
raised. -/
theorem c6_unrecognized_tag_skipped (line : List Char) (s : ChartSection)
    (n : Int) (h1 : 3 ≤ (split_by_space line).length)
    (h2 : string_view_to_int ((split_by_space line).getD 0 []) = some n)
    (h3 : (split_by_space line).getD 2 [] ∉
      [['N'], ['S'], ['B'], ['T', 'S'], ['E']]) :
    process_line line s = .ok s := by
  simp only [List.mem_cons, List.not_mem_nil, or_false, not_or] at h3
  obtain ⟨hN, hS, hB, hTS, hE⟩ := h3
  simp only [process_line, h2]
  rw [if_neg (by omega), if_neg hN, if_neg hS, if_neg hB, if_neg hTS,
    if_neg hE]

/-- C6 (witness): the line `0 = X 1 2` with unrecognized tag `X` leaves the
section unchanged. -/
theorem c6_unrecognized_tag_skipped_witness :
    process_line ("0 = X 1 2".toList) emptySection = .ok emptySection :=
  c6_unrecognized_tag_skipped ("0 = X 1 2".toList) emptySection 0
    (by decide) rfl (by decide)

/-- C7: the input consisting only of `[Foo]`, a newline and `\x7b` (no
closing brace) aborts with the truncated-input error "No lines left"; no
document is returned. -/
theorem c7_truncated_input_error :
    parse_chart ("[Foo]\n\x7b".toList) = .error .noLinesLeft := rfl

/-- C8: a body line that splits into fewer than 3 space-separated tokens
fails with "Line incomplete" before any dispatch, regardless of the section
state. -/
theorem c8_incomplete_line_error (line : List Char) (s : ChartSection)
    (h : (split_by_space line).length < 3) :
    process_line line s = .error .lineIncomplete := by
  simp only [process_line]
  rw [if_pos h]

/-- C8 (witness): the two-token line `0 =` fails with "Line incomplete". -/
theorem c8_incomplete_line_error_witness :
    process_line ("0 =".toList) emptySection = .error .lineIncomplete :=
  c8_incomplete_line_error ("0 =".toList) emptySection (by decide)

/-- C9: parsing terminates on every input: each successful line read
strictly shrinks the remaining input, a required read on an empty remainder
is exactly the truncation failure, and the section loop is insensitive to
its structural bound whenever the bound exceeds the input length (so the
canonical bound `length + 1` always suffices). -/
theorem c9_termination_shrink :
    (∀ (input l r : List Char), break_off_newline input = .ok (l, r) →
      r.length < input.length) ∧
    break_off_newline [] = .error .noLinesLeft ∧
    (∀ (f g : Nat) (data : List Char), data.length < f → data.length < g →
      parse_chart_fuel f data = parse_chart_fuel g data) :=
  ⟨break_off_newline_length_lt, rfl,
    fun f g data hf hg => parse_chart_fuel_congr f data g hf hg⟩

/-- C9 (witness): the shrinking property and bound-irrelevance evaluated at
concrete inputs. -/
theorem c9_termination_shrink_witness :
    (['b'] : List Char).length < ('a' :: '\n' :: ['b']).length ∧
    parse_chart_fuel 1 [] = parse_chart_fuel 2 [] :=
  ⟨c9_termination_shrink.1 ('a' :: '\n' :: ['b']) ['a'] ['b'] rfl,
    c9_termination_shrink.2.2 1 2 [] (by decide) (by decide)⟩

/-- C10: parsing the empty input succeeds with a document containing zero
sections; the section loop is never entered and no error is raised. -/
theorem c10_empty_input_ok : parse_chart [] = .ok ⟨[]⟩ := rfl

end SightRead
